import Mathlib

/-
Verification of tinydb-smartcache (src/tinydb_smartcache/__init__.py).

SmartCacheTable keeps a per-predicate query cache that is patched
incrementally on every mutation (insert, insert_multiple, update, remove,
truncate) instead of being invalidated.  We embed the table state shallowly:

* Documents are opaque values of a type `D` with decidable equality
  (Python compares documents by value: `dict.__eq__`).
* Query predicates are opaque values of a type `Q` with decidable equality
  (structural equality of tinydb Query objects) together with a pure
  application function `app : Q → D → Bool` (the spec mandates a
  deterministic, side-effect-free predicate).
* The document store is the ordered association list `store : List (Nat × D)`
  (Python dicts preserve insertion order; ids are allocated sequentially by
  `nextId`, as tinydb allocates fresh monotonically increasing ids).
* The LRU query cache is the ordered association list
  `cache : List (Entry Q D)` kept in recency order, least recently used
  first.  A value of `none` models a Python `None` / Unset slot, `some l`
  a computed result list.  `capacity` is the cache bound (default 10,
  `Table.default_query_cache_capacity`).

Python exceptions of the embedded methods are modelled with `TErr`:
`usageError` is `RuntimeError('Use truncate() to remove all documents')`
(and the analogous `RuntimeError` of `get` with no arguments), `keyError` a
`KeyError`, `valueError` the `ValueError` of `list.remove`.
-/

namespace SmartCache

/-- A cache entry: the predicate key together with its value (`none` models
Python `None`, `some l` a computed list of matching documents). -/
abbrev Entry (Q D : Type) := Q × Option (List D)

/-- The state of a `SmartCacheTable`: the document store (id/document pairs in
insertion order), the next fresh document id, the query cache in LRU order
(least recently used first), and the cache capacity. -/
structure TState (Q D : Type) where
  store : List (Nat × D)
  nextId : Nat
  cache : List (Entry Q D)
  capacity : Nat
  deriving DecidableEq

/-- Exceptions raised by the embedded table operations. -/
inductive TErr where
  | usageError
  | keyError
  | valueError
  deriving DecidableEq

variable {Q D : Type} [DecidableEq Q] [DecidableEq D]

/-- Key lookup in the cache (an OrderedDict in the source): `some v` when the
key is present with stored value `v`, `none` when the key is absent. -/
def cacheFind (q : Q) : List (Entry Q D) → Option (Option (List D))
  | [] => none
  | e :: es => if e.1 = q then some e.2 else cacheFind q es

/-- Remove the entry with the given key (Python `del cache[key]` /
`OrderedDict.pop`); removes the first occurrence. -/
def cacheErase (q : Q) : List (Entry Q D) → List (Entry Q D)
  | [] => []
  | e :: es => if e.1 = q then es else e :: cacheErase q es

/-- Model of `OrderedDict.move_to_end(key, last=True)`: move the entry for `q` to the
most-recently-used end; no-op when absent. -/
def moveToEnd (q : Q) (c : List (Entry Q D)) : List (Entry Q D) :=
  match cacheFind q c with
  | some v => cacheErase q c ++ [(q, v)]
  | none => c

/-- Model of the `LRUCache.get` result: the computed list for `q` if the key is present
with a non-`None` value (a `None` value behaves like a miss in tinydb's
`LRUCache.get`). -/
def cacheHit (q : Q) (c : List (Entry Q D)) : Option (List D) :=
  match cacheFind q c with
  | some (some l) => some l
  | _ => none

/-- Model of `LRUCache.set` per the spec contract (section 4.1): insert or replace the
entry, mark it most recently used; when a new entry exceeds the capacity,
evict the least-recently-used entry (the front). -/
def lruSet (q : Q) (v : Option (List D)) (cap : Nat) (c : List (Entry Q D)) :
    List (Entry Q D) :=
  if (cacheFind q c).isSome then cacheErase q c ++ [(q, v)]
  else if c.length + 1 > cap then (c ++ [(q, v)]).tail
  else c ++ [(q, v)]

/-- Store lookup by document id (`table.get(doc_id)`). -/
def storeLookup : List (Nat × D) → Nat → Option D
  | [], _ => none
  | e :: es, i => if e.1 = i then some e.2 else storeLookup es i

/-- In-place overwrite of the document at an existing id
(`table[doc_id] = ...` keeps the dict position). -/
def storeSet (i : Nat) (d : D) (st : List (Nat × D)) : List (Nat × D) :=
  st.map (fun e => if e.1 = i then (i, d) else e)

/-- Model of `table.pop(doc_id)`: remove the entry with the id, or fail with a
`KeyError` (`none`) when the id is absent. -/
def storePop (i : Nat) : List (Nat × D) → Option (List (Nat × D))
  | [] => none
  | e :: es => if e.1 = i then some es else (storePop i es).map (e :: ·)

/-- Pop a sequence of ids one after the other (`for doc_id in removed_ids:
table.pop(doc_id)`); `none` as soon as one id is absent. -/
def popAll : List Nat → List (Nat × D) → Option (List (Nat × D))
  | [], st => some st
  | i :: is, st =>
    match storePop i st with
    | none => none
    | some st2 => popAll is st2

/-- Python `list.remove(x)`: remove the first occurrence that compares equal
to `x`, or raise `ValueError` (`none`) when no occurrence exists. -/
def pyListRemove (x : D) : List D → Option (List D)
  | [] => none
  | y :: ys => if y = x then some ys else (pyListRemove x ys).map (y :: ·)

/-- Removal of the first value-equal occurrence (the successful case of
`list.remove`). -/
def removeFirstOcc (x : D) : List D → List D
  | [] => []
  | y :: ys => if y = x then ys else y :: removeFirstOcc x ys

/-- One step of the Python pattern `for doc in lst: if p(doc): lst.remove(doc)`
iterating a list by index while removing from it: at index `i`, if the element
matches, remove its first value-equal occurrence, then advance to index `i+1`
of the mutated list.  The fuel argument (initially the list length) bounds the
iteration; the loop itself stops as soon as the index reaches the current
length. -/
def pyRemoveScanAux (p : D → Bool) : Nat → Nat → List D → List D
  | 0, _, l => l
  | fuel + 1, i, l =>
    if h : i < l.length then
      let d := l.get ⟨i, h⟩
      if p d then pyRemoveScanAux p fuel (i + 1) (removeFirstOcc d l)
      else pyRemoveScanAux p fuel (i + 1) l
    else l

/-- The Python loop `for doc in lst: if p(doc): lst.remove(doc)` (the cache
patch loop of `SmartCacheTable.remove`).  Note this is NOT a filter: removing
the element at the iteration index shifts the remainder left, so the element
immediately following a removed one is skipped. -/
def pyRemoveScan (p : D → Bool) (l : List D) : List D :=
  pyRemoveScanAux p l.length 0 l

variable (app : Q → D → Bool)

/-
SmartCacheTable.search:

    if cond in self._query_cache:
        docs = self._query_cache.get(cond)
        if docs is not None:
            return docs[:]
    docs = [doc for doc in self if cond(doc)]
    self._query_cache[cond] = docs[:]
    return docs

`cond in self._query_cache` goes through `LRUCache.__getitem__`, which treats
a stored `None` as a miss (and moves a present key to the most-recently-used
end); `docs[:]` copies are value-equal to the cached list, so the hit branch
returns the cached list's value.  On a miss the table is scanned in insertion
order and the computed list is stored via `LRUCache.set`.
-/

/-- Embedded `SmartCacheTable.search`: returns the result list and the new state. -/
def searchOp (q : Q) (s : TState Q D) : List D × TState Q D :=
  match cacheHit q s.cache with
  | some docs => (docs, { s with cache := moveToEnd q s.cache })
  | none =>
    let docs := (s.store.map Prod.snd).filter (fun d => app q d)
    (docs, { s with cache := lruSet q (some docs) s.capacity s.cache })

/-
SmartCacheTable.insert:

    doc_id = super().insert(document)
    for query in self._query_cache.lru:
        results = self._query_cache[query]
        if query(document) and results is not None:
            results.append(document)
    return doc_id

The loop iterates a snapshot of the keys in recency order; every access moves
the visited key to the most-recently-used end, so after the loop the cache is
in the original order with the values patched — a map over the entries.
-/

/-- The query-cache patch of `SmartCacheTable.insert`: append the new document
to every computed entry whose predicate it satisfies (`None` entries are left
untouched by the `results is not None` guard). -/
def insertCachePatch (d : D) (c : List (Entry Q D)) : List (Entry Q D) :=
  c.map (fun e =>
    match e.2 with
    | some results =>
      (e.1, if app e.1 d then some (results ++ [d]) else some results)
    | none => e)

/-- Embedded `SmartCacheTable.insert`: store the document under a fresh id, then patch
every cache entry; returns the new id and the new state. -/
def insertOp (d : D) (s : TState Q D) : Nat × TState Q D :=
  (s.nextId,
   { s with
     store := s.store ++ [(s.nextId, d)]
     nextId := s.nextId + 1
     cache := insertCachePatch app d s.cache })

/-- A Python iterable as passed to `insert_multiple`: a list can be iterated
repeatedly, a generator yields its elements once and is exhausted
afterwards. -/
inductive PyIter (D : Type) where
  | ofList (xs : List D)
  | generator (xs : List D)
  deriving DecidableEq

/-- Iterate a Python iterable to the end: the yielded elements and the
iterable's state afterwards (a generator is left exhausted). -/
def PyIter.consumeAll : PyIter D → List D × PyIter D
  | .ofList xs => (xs, .ofList xs)
  | .generator xs => (xs, .generator [])

/-- The query-cache patch of `SmartCacheTable.insert_multiple`: for every
computed entry, append (in document order) every new document its predicate
matches. -/
def insertMultipleCachePatch (docs : List D) (c : List (Entry Q D)) :
    List (Entry Q D) :=
  c.map (fun e =>
    match e.2 with
    | some results => (e.1, some (results ++ docs.filter (fun d => app e.1 d)))
    | none => e)

/-
SmartCacheTable.insert_multiple:

    doc_ids = super().insert_multiple(documents)
    for query in self._query_cache.lru:
        results = self._query_cache[query]
        if results is not None:
            for doc in documents:
                if query(doc):
                    results.append(doc)
    return doc_ids

`super().insert_multiple(documents)` iterates `documents` to allocate the ids
and fill the store; the cache loop then iterates `documents` AGAIN.  For a
generator the second iteration yields nothing.
-/

/-- Embedded `SmartCacheTable.insert_multiple`: store all yielded documents under fresh
sequential ids, then patch the cache with whatever a second iteration of the
iterable still yields. -/
def insertMultipleOp (it : PyIter D) (s : TState Q D) :
    List Nat × TState Q D :=
  let first := PyIter.consumeAll it
  let xs := first.1
  let ids := List.range' s.nextId xs.length
  let second := PyIter.consumeAll first.2
  (ids,
   { s with
     store := s.store ++ ids.zip xs
     nextId := s.nextId + xs.length
     cache := insertMultipleCachePatch app second.1 s.cache })

/-- Embedded `SmartCacheTable.truncate`: clear the store (`super().truncate()`, which
also resets the id counter) and the whole query cache (`self.clear_cache()`). -/
def truncateOp (s : TState Q D) : TState Q D :=
  { s with store := [], nextId := 1, cache := [] }

/-
SmartCacheTable.get:

    if (doc_id is None) and (cond is not None):
        if cond in self._query_cache:
            for doc in self._query_cache.get(cond):
                if cond(doc):
                    return doc
    return super().get(cond, doc_id)

`Table.get` checks `doc_id` first (direct store lookup, absent id yields
`None`), then scans for the first document matching `cond`, and raises
`RuntimeError` when both arguments are `None`.
-/

/-- Embedded `SmartCacheTable.get`: result (`none` for a Python `None`) and new state. -/
def getOp (cond : Option Q) (docId : Option Nat) (s : TState Q D) :
    Except TErr (Option D) × TState Q D :=
  match docId, cond with
  | none, some q =>
    match cacheHit q s.cache with
    | some cached =>
      let s2 := { s with cache := moveToEnd q s.cache }
      match cached.find? (fun d => app q d) with
      | some d => (Except.ok (some d), s2)
      | none => (Except.ok ((s.store.map Prod.snd).find? (fun d => app q d)), s2)
    | none => (Except.ok ((s.store.map Prod.snd).find? (fun d => app q d)), s)
  | some i, _ => (Except.ok (storeLookup s.store i), s)
  | none, none => (Except.error TErr.usageError, s)

/-
SmartCacheTable.update / perform_update_override — per targeted document:

    old_value = doc.copy()
    perform_update(doc)
    new_value = doc
    for query in self._query_cache.lru:
        results = self._query_cache[query]
        if query(old_value):
            results.remove(old_value)
        if query(new_value):
            results.append(new_value)

`self._query_cache[query]` raises `KeyError` on a `None` value (tinydb's
`LRUCache.__getitem__`); `results.remove` raises `ValueError` when the old
value has no occurrence.  The loop walks a snapshot of the keys in order and
every successful access moves the key to the most-recently-used end, so on
success the cache keeps its order with values patched; on an exception the
already-patched entries sit at the end, behind the untouched remainder.
-/

/-- The cache loop of `perform_update_override` for one targeted document:
returns the exception (if any), the entries not yet reached (still at the
front), and the processed entries (moved to the back, in processing order). -/
def updateCacheLoop (old new : D) :
    List (Entry Q D) → Option TErr × List (Entry Q D) × List (Entry Q D)
  | [] => (none, [], [])
  | e :: es =>
    match e.2 with
    | none => (some TErr.keyError, e :: es, [])
    | some results =>
      match (if app e.1 old then pyListRemove old results else some results) with
      | none => (some TErr.valueError, es, [(e.1, some results)])
      | some r1 =>
        let e2 : Entry Q D := (e.1, some (if app e.1 new then r1 ++ [new] else r1))
        let t := updateCacheLoop old new es
        (t.1, t.2.1, e2 :: t.2.2)

/-- The whole-cache effect of `perform_update_override` for one targeted
document: the exception (if any) and the resulting cache. -/
def updateCachePatched (old new : D) (c : List (Entry Q D)) :
    Option TErr × List (Entry Q D) :=
  let t := updateCacheLoop app old new c
  (t.1, t.2.1 ++ t.2.2)

/-- The updater loop of `Table.update` with `perform_update_override`: for each
targeted id, fetch the document (`KeyError` when the id is absent), overwrite
it with the transformed value in the draft table, and patch the cache.  Returns
the exception (if any), the draft store, and the cache. -/
def updateFold (f : D → D) :
    List Nat → List (Nat × D) → List (Entry Q D) →
    Option TErr × List (Nat × D) × List (Entry Q D)
  | [], st, c => (none, st, c)
  | i :: is, st, c =>
    match storeLookup st i with
    | none => (some TErr.keyError, st, c)
    | some doc =>
      let p := updateCachePatched app doc (f doc) c
      match p.1 with
      | some err => (some err, storeSet i (f doc) st, p.2)
      | none => updateFold f is (storeSet i (f doc) st) p.2

/-- Embedded `SmartCacheTable.update`: targets are the given ids, else the documents
matching `cond` (in store order), else every document.  On success the updated
store is written back; when the updater raises, the storage write never
happens, so the store keeps its old value while the in-place cache patches of
the already-processed documents persist. -/
def updateOp (f : D → D) (cond : Option Q) (docIds : Option (List Nat))
    (s : TState Q D) : Except TErr (List Nat) × TState Q D :=
  let targets :=
    match docIds, cond with
    | some ids, _ => ids
    | none, some c => (s.store.filter (fun e => app c e.2)).map Prod.fst
    | none, none => s.store.map Prod.fst
  let t := updateFold app f targets s.store s.cache
  match t.1 with
  | some err => (Except.error err, { s with cache := t.2.2 })
  | none => (Except.ok targets, { s with store := t.2.1, cache := t.2.2 })

/-
SmartCacheTable.remove:

    if cond is None and doc_ids is None:
        raise RuntimeError('Use truncate() to remove all documents')
    if doc_ids is not None:
        docs_by_id = [self.get(doc_id=x) for x in doc_ids]
    for query in self._query_cache.lru:
        if (not cond is None) and (query == cond):
            del self._query_cache[query]
        else:
            for doc in self._query_cache[query]:
                if ((cond is not None) and cond(doc))\
                        or ((doc_ids is not None) and doc in docs_by_id):
                    self._query_cache[query].remove(doc)
    return super().remove(cond, doc_ids)

The inner loop iterates the cached list while removing from it
(`pyRemoveScan`).  `super().remove` pops the given ids (doc_ids branch first,
`KeyError` on an absent id) or removes every document matching `cond`.
-/

/-- The cache loop of `SmartCacheTable.remove`: drop the entry whose key is
structurally equal to the removal predicate, patch every other entry with the
iterate-while-removing scan (`KeyError` on a `None` value).  Returns the
exception (if any), the entries not yet reached, and the processed entries
(moved to the back, in processing order). -/
def removeCacheLoop (cond : Option Q) (matchDoc : D → Bool) :
    List (Entry Q D) → Option TErr × List (Entry Q D) × List (Entry Q D)
  | [] => (none, [], [])
  | e :: es =>
    if (match cond with | some c => decide (e.1 = c) | none => false : Bool) then
      removeCacheLoop cond matchDoc es
    else
      match e.2 with
      | none => (some TErr.keyError, e :: es, [])
      | some results =>
        let e2 : Entry Q D := (e.1, some (pyRemoveScan matchDoc results))
        let t := removeCacheLoop cond matchDoc es
        (t.1, t.2.1, e2 :: t.2.2)

/-- Membership test `doc in docs_by_id` (Python value equality; `None`
elements never equal a document). -/
def memOptDoc (d : D) : List (Option D) → Bool
  | [] => false
  | x :: xs => if x = some d then true else memOptDoc d xs

/-- Embedded `SmartCacheTable.remove`: with neither selector, fail with the usage error
before touching anything; otherwise patch the cache (the removal predicate on
cached documents is `cond(doc) or doc in docs_by_id`, with `docs_by_id` the
pre-removal snapshot of the documents fetched by id) and then remove from the
store, ids first. -/
def removeOp (cond : Option Q) (docIds : Option (List Nat)) (s : TState Q D) :
    Except TErr (List Nat) × TState Q D :=
  match cond, docIds with
  | none, none => (Except.error TErr.usageError, s)
  | _, _ =>
    let docsById : Option (List (Option D)) :=
      docIds.map (fun ids => ids.map (storeLookup s.store))
    let matchDoc : D → Bool := fun d =>
      (match cond with | some c => app c d | none => false) ||
      (match docsById with | some l => memOptDoc d l | none => false)
    let t := removeCacheLoop cond matchDoc s.cache
    let cache2 := t.2.1 ++ t.2.2
    match t.1 with
    | some err => (Except.error err, { s with cache := cache2 })
    | none =>
      match docIds with
      | some ids =>
        match popAll ids s.store with
        | none => (Except.error TErr.keyError, { s with cache := cache2 })
        | some st2 => (Except.ok ids, { s with store := st2, cache := cache2 })
      | none =>
        match cond with
        | some c =>
          (Except.ok ((s.store.filter (fun e => app c e.2)).map Prod.fst),
           { s with
             store := s.store.filter (fun e => !(app c e.2))
             cache := cache2 })
        | none => (Except.error TErr.usageError, s)

end SmartCache

namespace SmartCache

/-- A concrete document shape for the test fixtures of the repository:
records with an optional `int` field and an optional `char` field
(`{int: 1, char: a}` is `⟨some 1, some a⟩`, `{int: 1}` is `⟨some 1, none⟩`). -/
structure SDoc where
  intF : Option Int
  charF : Option Char
  deriving DecidableEq

/-- A concrete structural query language over `SDoc`: field equality tests
(`where(f) == v`) and a field-existence test, compared as values (tinydb
queries have structural equality and hashes). -/
inductive SQuery where
  | intEq (n : Int)
  | charEq (c : Char)
  | intExists
  deriving DecidableEq

/-- Application of a concrete query to a concrete document. -/
def sapp : SQuery → SDoc → Bool
  | .intEq n, d => d.intF = some n
  | .charEq c, d => d.charF = some c
  | .intExists, d => d.intF.isSome

/-- Fixture document `{int: 1, char: a}`. -/
def docA : SDoc := ⟨some 1, some 'a'⟩

/-- Fixture document `{int: 1, char: b}`. -/
def docB : SDoc := ⟨some 1, some 'b'⟩

/-- Fixture document `{int: 1, char: c}`. -/
def docC : SDoc := ⟨some 1, some 'c'⟩

/-- Fixture document `{int: 1}`. -/
def docN : SDoc := ⟨some 1, none⟩

/-- The query `where(int) == 1`. -/
def qQ : SQuery := SQuery.intEq 1

/-- The query `where(int) == 2`. -/
def qD : SQuery := SQuery.intEq 2

/-- The query `where(int).exists()`. -/
def qI : SQuery := SQuery.intExists

/-- A fresh table: empty store, first id 1, empty cache, default capacity 10
(`Table.default_query_cache_capacity`). -/
def initState : TState SQuery SDoc := ⟨[], 1, [], 10⟩

/-- Table after `insert({int: 1, char: a}); insert({int: 1, char: b})`:
documents at ids 1 and 2, cache still empty. -/
def twoDocState : TState SQuery SDoc :=
  (insertOp sapp docB (insertOp sapp docA initState).2).2

/-- State `twoDocState` after `search(where(int) == 1)`: the cache holds the entry
`int == 1 ↦ [docA, docB]`. -/
def twoDocSearched : TState SQuery SDoc := (searchOp sapp qQ twoDocState).2

/-- Run of `remove(where(int).exists())` on `twoDocSearched`: the removal predicate
matches both documents and is structurally different from the cached key. -/
def removeCondRun := removeOp sapp (some qI) none twoDocSearched

/-- Run of `remove(doc_ids=[1, 2])` on `twoDocSearched`: both cached documents have
their ids in the removal id set. -/
def removeIdsRun := removeOp sapp none (some [1, 2]) twoDocSearched

/-- The corrupted state left by `removeCondRun`: the store is empty but the
cached entry for `int == 1` still holds `{int: 1, char: b}`. -/
def corruptState : TState SQuery SDoc := removeCondRun.2

/-- State reached by `search(int == 1)` on a fresh table: the cache holds the
computed entry `int == 1 ↦ []`. -/
def warmEmptyState : TState SQuery SDoc := (searchOp sapp qQ initState).2

/-- Run of `insert_multiple` called with a one-shot generator yielding
`{int: 1}`. -/
def insertManyGenRun := insertMultipleOp sapp (PyIter.generator [docN]) warmEmptyState

/-- Run of `insert` called once with the same document `{int: 1}`. -/
def insertOneRun := insertOp sapp docN warmEmptyState

/-- The three fixture documents inserted into a fresh table. -/
def threeDocState : TState SQuery SDoc :=
  (insertOp sapp docC (insertOp sapp docB (insertOp sapp docA initState).2).2).2

/-- State `threeDocState` after `search(int == 1)` and `search(int == 2)`. -/
def threeDocSearched : TState SQuery SDoc :=
  (searchOp sapp qD (searchOp sapp qQ threeDocState).2).2

/-- State `threeDocSearched` after `truncate()`: `clear_cache()` empties the
cache. -/
def truncatedState : TState SQuery SDoc := truncateOp threeDocSearched

/-- State `truncatedState` after re-running `search(int == 1)` and
`search(int == 2)` (step 2 of the spec's scenario), then `insert({int: 1})`. -/
def truncSearchInsertState : TState SQuery SDoc :=
  (insertOp sapp docN
    (searchOp sapp qD (searchOp sapp qQ truncatedState).2).2).2

/-- A heap of Python list objects, indexed by object identity (cell id).
Used to model the aliasing behaviour of `return docs[:]` in
`SmartCacheTable.search`, which the value-level state cannot express.
Allocation appends a new cell and returns its id. -/
def allocCell (h : List (List Nat)) (v : List Nat) : Nat × List (List Nat) :=
  (h.length, h ++ [v])

/-- Read a list object from the heap by its cell id. -/
def readCell (h : List (List Nat)) (i : Nat) : List Nat :=
  (h.getD i [])

/-- In-place mutation of the list object with the given cell id (any sequence
of appends, removals and element replacements amounts to overwriting the
cell's contents). -/
def writeCell (h : List (List Nat)) (i : Nat) (v : List Nat) : List (List Nat) :=
  h.set i v

/-- The hit path `return docs[:]` of `SmartCacheTable.search`: the slice copy
allocates a NEW list object whose elements are the SAME document references
as the cache-owned list in cell `cid`, and returns the new cell. -/
def searchHitCopy (h : List (List Nat)) (cid : Nat) : Nat × List (List Nat) :=
  allocCell h (readCell h cid)

/-- The documents of a cached result list, as seen through the document heap:
cell elements are document references. -/
def docView (dheap : List SDoc) (cell : List Nat) : List (Option SDoc) :=
  cell.map (fun i => dheap[i]?)

end SmartCache

namespace SmartCache

/-- Table states reachable from a fresh table by completed operations: the
constructors are exactly the public operations of `SmartCacheTable`; `remove`
and `update` steps require the operation to have finished without raising. -/
inductive Reach {Q D : Type} [DecidableEq Q] [DecidableEq D]
    (app : Q → D → Bool) : TState Q D → Prop where
  | init (cap : Nat) : Reach app ⟨[], 1, [], cap⟩
  | search (q : Q) (s : TState Q D) : Reach app s → Reach app (searchOp app q s).2
  | insert (d : D) (s : TState Q D) : Reach app s → Reach app (insertOp app d s).2
  | insertMany (it : PyIter D) (s : TState Q D) :
      Reach app s → Reach app (insertMultipleOp app it s).2
  | getStep (c : Option Q) (i : Option Nat) (s : TState Q D) :
      Reach app s → Reach app (getOp app c i s).2
  | truncate (s : TState Q D) : Reach app s → Reach app (truncateOp s)
  | removeStep (c : Option Q) (ids : Option (List Nat)) (s : TState Q D)
      (r : List Nat) (s2 : TState Q D) :
      Reach app s → removeOp app c ids s = (Except.ok r, s2) → Reach app s2
  | updateStep (f : D → D) (c : Option Q) (ids : Option (List Nat))
      (s : TState Q D) (r : List Nat) (s2 : TState Q D) :
      Reach app s → updateOp app f c ids s = (Except.ok r, s2) → Reach app s2

end SmartCache
namespace SmartCache

/-- Python list removal of a present element: `list.remove` succeeds and
removes exactly the first value-equal occurrence. -/
theorem pyListRemove_of_mem {D : Type} [DecidableEq D] (x : D) (l : List D)
    (h : x ∈ l) : pyListRemove x l = some (removeFirstOcc x l) := by
  induction l with
  | nil => cases h
  | cons y ys ih =>
    by_cases hy : y = x
    · simp [pyListRemove, removeFirstOcc, hy]
    · have hx : x ∈ ys := by
        cases h with
        | head => exact absurd rfl hy
        | tail _ h2 => exact h2
      simp [pyListRemove, removeFirstOcc, hy, ih hx]

/-- A key that occurs in no entry is not found. -/
theorem cacheFind_eq_none_of_not_mem {Q D : Type} [DecidableEq Q] (q : Q)
    (c : List (Entry Q D)) (h : q ∉ c.map Prod.fst) : cacheFind q c = none := by
  induction c with
  | nil => rfl
  | cons e es ih =>
    simp only [List.map_cons, List.mem_cons] at h
    push_neg at h
    have hne : ¬ (e.1 = q) := fun he => h.1 (Eq.symm he)
    simp only [cacheFind, if_neg hne]
    exact ih h.2

/-- With no duplicate keys, erasing a key removes its only entry. -/
theorem cacheFind_erase_self {Q D : Type} [DecidableEq Q] (q : Q)
    (c : List (Entry Q D)) (h : (c.map Prod.fst).Nodup) :
    cacheFind q (cacheErase q c) = none := by
  induction c with
  | nil => rfl
  | cons e es ih =>
    simp only [List.map_cons, List.nodup_cons] at h
    by_cases he : e.1 = q
    · simp only [cacheErase, if_pos he]
      exact cacheFind_eq_none_of_not_mem q es (he ▸ h.1)
    · simp only [cacheErase, if_neg he, cacheFind, if_neg he]
      exact ih h.2

/-- Lookup skips a prefix that does not contain the key. -/
theorem cacheFind_append_of_none {Q D : Type} [DecidableEq Q] (q : Q)
    (c1 c2 : List (Entry Q D)) (h : cacheFind q c1 = none) :
    cacheFind q (c1 ++ c2) = cacheFind q c2 := by
  induction c1 with
  | nil => rfl
  | cons e es ih =>
    simp only [cacheFind] at h
    by_cases he : e.1 = q
    · simp [he] at h
    · simp only [List.cons_append, cacheFind, if_neg he]
      exact ih (by simpa [he] using h)

/-- Moving a key to the most-recently-used end does not change its value
(no duplicate keys). -/
theorem cacheFind_moveToEnd_self {Q D : Type} [DecidableEq Q] (q : Q)
    (c : List (Entry Q D)) (h : (c.map Prod.fst).Nodup) :
    cacheFind q (moveToEnd q c) = cacheFind q c := by
  unfold moveToEnd
  cases hf : cacheFind q c with
  | none => exact hf
  | some v =>
    rw [cacheFind_append_of_none q _ _ (cacheFind_erase_self q c h)]
    simp [cacheFind]

/-- After `LRUCache.set`, the key either holds the stored value or was
immediately evicted (possible only when the capacity admits no entry at all). -/
theorem cacheFind_lruSet_self {Q D : Type} [DecidableEq Q] (q : Q)
    (v : Option (List D)) (cap : Nat) (c : List (Entry Q D))
    (h : (c.map Prod.fst).Nodup) :
    cacheFind q (lruSet q v cap c) = some v ∨
    cacheFind q (lruSet q v cap c) = none := by
  unfold lruSet
  by_cases hp : (cacheFind q c).isSome
  · rw [if_pos hp, cacheFind_append_of_none q _ _ (cacheFind_erase_self q c h)]
    left
    simp [cacheFind]
  · rw [if_neg hp]
    have hnone : cacheFind q c = none := by
      cases hf : cacheFind q c with
      | none => rfl
      | some w => rw [hf] at hp; simp at hp
    by_cases hcap : c.length + 1 > cap
    · rw [if_pos hcap]
      cases c with
      | nil => right; rfl
      | cons e es =>
        left
        simp only [List.cons_append, List.tail_cons]
        simp only [cacheFind] at hnone
        by_cases he : e.1 = q
        · simp [he] at hnone
        · rw [cacheFind_append_of_none q _ _ (by simpa [he] using hnone)]
          simp [cacheFind]
    · rw [if_neg hcap]
      left
      rw [cacheFind_append_of_none q _ _ hnone]
      simp [cacheFind]

/-- A computed cache hit is exactly a stored non-`None` value. -/
theorem cacheHit_eq_some_iff {Q D : Type} [DecidableEq Q] (q : Q)
    (c : List (Entry Q D)) (l : List D) :
    cacheHit q c = some l ↔ cacheFind q c = some (some l) := by
  unfold cacheHit
  cases hf : cacheFind q c with
  | none => simp
  | some v => cases v <;> simp

/-- Erasing a key keeps only entries of the original cache. -/
theorem mem_of_mem_cacheErase {Q D : Type} [DecidableEq Q] (q : Q)
    (c : List (Entry Q D)) (e : Entry Q D) (h : e ∈ cacheErase q c) : e ∈ c := by
  induction c with
  | nil => cases h
  | cons x xs ih =>
    by_cases hx : x.1 = q
    · simp only [cacheErase, if_pos hx] at h
      exact List.mem_cons_of_mem _ h
    · simp only [cacheErase, if_neg hx, List.mem_cons] at h
      rcases h with h | h
      · exact h ▸ List.mem_cons_self _ _
      · exact List.mem_cons_of_mem _ (ih h)

/-- A found value is the value of some entry. -/
theorem cacheFind_mem {Q D : Type} [DecidableEq Q] (q : Q)
    (c : List (Entry Q D)) (v : Option (List D))
    (h : cacheFind q c = some v) : ∃ e ∈ c, e.2 = v := by
  induction c with
  | nil => cases h
  | cons x xs ih =>
    by_cases hx : x.1 = q
    · simp only [cacheFind, if_pos hx, Option.some.injEq] at h
      exact ⟨x, List.mem_cons_self _ _, h⟩
    · simp only [cacheFind, if_neg hx] at h
      obtain ⟨e, he, hv⟩ := ih h
      exact ⟨e, List.mem_cons_of_mem _ he, hv⟩

/-- Recency reordering keeps every cache value computed. -/
theorem allSome_moveToEnd {Q D : Type} [DecidableEq Q] (q : Q)
    (c : List (Entry Q D)) (h : ∀ e ∈ c, e.2.isSome = true) :
    ∀ e ∈ moveToEnd q c, e.2.isSome = true := by
  intro e he
  unfold moveToEnd at he
  cases hf : cacheFind q c with
  | none => rw [hf] at he; exact h e he
  | some v =>
    rw [hf] at he
    rcases List.mem_append.mp he with h1 | h1
    · exact h e (mem_of_mem_cacheErase q c e h1)
    · obtain ⟨e2, he2, hv⟩ := cacheFind_mem q c v hf
      have : e = (q, v) := List.mem_singleton.mp h1
      subst this
      have := h e2 he2
      rw [hv] at this
      exact this

/-- Storing a computed list keeps every cache value computed. -/
theorem allSome_lruSet {Q D : Type} [DecidableEq Q] (q : Q) (l : List D)
    (cap : Nat) (c : List (Entry Q D)) (h : ∀ e ∈ c, e.2.isSome = true) :
    ∀ e ∈ lruSet q (some l) cap c, e.2.isSome = true := by
  intro e he
  unfold lruSet at he
  split at he
  · rcases List.mem_append.mp he with h1 | h1
    · exact h e (mem_of_mem_cacheErase q c e h1)
    · have : e = (q, some l) := List.mem_singleton.mp h1
      subst this; rfl
  · split at he
    · have hm : e ∈ c ++ [(q, some l)] := List.mem_of_mem_tail he
      rcases List.mem_append.mp hm with h1 | h1
      · exact h e h1
      · have : e = (q, some l) := List.mem_singleton.mp h1
        subst this; rfl
    · rcases List.mem_append.mp he with h1 | h1
      · exact h e h1
      · have : e = (q, some l) := List.mem_singleton.mp h1
        subst this; rfl

/-- The insert patch keeps every cache value computed. -/
theorem allSome_insertCachePatch {Q D : Type} (app : Q → D → Bool) (d : D)
    (c : List (Entry Q D)) (h : ∀ e ∈ c, e.2.isSome = true) :
    ∀ e ∈ insertCachePatch app d c, e.2.isSome = true := by
  intro e he
  unfold insertCachePatch at he
  obtain ⟨x, hx, hmap⟩ := List.mem_map.mp he
  subst hmap
  cases hv : x.2 with
  | none => have := h x hx; rw [hv] at this; cases this
  | some results => simp [hv]; split <;> simp

/-- The bulk-insert patch keeps every cache value computed. -/
theorem allSome_insertMultipleCachePatch {Q D : Type} (app : Q → D → Bool)
    (docs : List D) (c : List (Entry Q D)) (h : ∀ e ∈ c, e.2.isSome = true) :
    ∀ e ∈ insertMultipleCachePatch app docs c, e.2.isSome = true := by
  intro e he
  unfold insertMultipleCachePatch at he
  obtain ⟨x, hx, hmap⟩ := List.mem_map.mp he
  subst hmap
  cases hv : x.2 with
  | none => have := h x hx; rw [hv] at this; cases this
  | some results => simp [hv]

/-- Every entry the remove loop has processed holds a computed list. -/
theorem removeCacheLoop_done_allSome {Q D : Type} [DecidableEq Q]
    [DecidableEq D] (cond : Option Q) (m : D → Bool) (c : List (Entry Q D)) :
    ∀ e ∈ (removeCacheLoop cond m c).2.2, e.2.isSome = true := by
  induction c with
  | nil => intro e he; cases he
  | cons x xs ih =>
    intro e he
    simp only [removeCacheLoop] at he
    split at he
    · exact ih e he
    · split at he
      · cases he
      · simp only [List.mem_cons] at he
        rcases he with he | he
        · subst he; rfl
        · exact ih e he

/-- When the remove loop finishes without raising, no unprocessed entries
remain. -/
theorem removeCacheLoop_ok_rem_nil {Q D : Type} [DecidableEq Q]
    [DecidableEq D] (cond : Option Q) (m : D → Bool) (c : List (Entry Q D))
    (hok : (removeCacheLoop cond m c).1 = none) :
    (removeCacheLoop cond m c).2.1 = [] := by
  induction c with
  | nil => rfl
  | cons x xs ih =>
    simp only [removeCacheLoop] at hok ⊢
    split at hok
    · rename_i hdel
      rw [if_pos hdel]
      exact ih hok
    · rename_i hdel
      rw [if_neg hdel]
      split at hok
      · cases hok
      · exact ih hok

/-- Every entry the update loop has processed holds a computed list. -/
theorem updateCacheLoop_done_allSome {Q D : Type} [DecidableEq D]
    (app : Q → D → Bool) (old new : D) (c : List (Entry Q D)) :
    ∀ e ∈ (updateCacheLoop app old new c).2.2, e.2.isSome = true := by
  induction c with
  | nil => intro e he; cases he
  | cons x xs ih =>
    intro e he
    simp only [updateCacheLoop] at he
    split at he
    · cases he
    · split at he
      · simp only [List.mem_singleton] at he
        subst he; rfl
      · simp only [List.mem_cons] at he
        rcases he with he | he
        · subst he; rfl
        · exact ih e he

/-- When the update loop finishes without raising, no unprocessed entries
remain. -/
theorem updateCacheLoop_ok_rem_nil {Q D : Type} [DecidableEq D]
    (app : Q → D → Bool) (old new : D) (c : List (Entry Q D))
    (hok : (updateCacheLoop app old new c).1 = none) :
    (updateCacheLoop app old new c).2.1 = [] := by
  induction c with
  | nil => rfl
  | cons x xs ih =>
    simp only [updateCacheLoop] at hok ⊢
    split at hok
    · cases hok
    · split at hok
      · cases hok
      · exact ih hok

/-- A successful per-document cache patch leaves only computed values. -/
theorem updateCachePatched_ok_allSome {Q D : Type} [DecidableEq D]
    (app : Q → D → Bool) (old new : D) (c : List (Entry Q D))
    (hok : (updateCachePatched app old new c).1 = none) :
    ∀ e ∈ (updateCachePatched app old new c).2, e.2.isSome = true := by
  intro e he
  simp only [updateCachePatched] at he hok
  rcases List.mem_append.mp he with h1 | h1
  · rw [updateCacheLoop_ok_rem_nil app old new c hok] at h1
    cases h1
  · exact updateCacheLoop_done_allSome app old new c e h1

/-- A successful updater run leaves only computed cache values. -/
theorem updateFold_ok_allSome {Q D : Type} [DecidableEq D]
    (app : Q → D → Bool) (f : D → D) (ids : List Nat) (st : List (Nat × D))
    (c : List (Entry Q D)) (h : ∀ e ∈ c, e.2.isSome = true)
    (hok : (updateFold app f ids st c).1 = none) :
    ∀ e ∈ (updateFold app f ids st c).2.2, e.2.isSome = true := by
  induction ids generalizing st c with
  | nil => exact h
  | cons i is ih =>
    simp only [updateFold] at hok ⊢
    split at hok
    · cases hok
    · split at hok
      · cases hok
      · rename_i doc hdoc h2 hp
        exact ih (storeSet i (f doc) st) _
          (updateCachePatched_ok_allSome app doc (f doc) c hp) hok

/-- The remove cache loop never raises the usage error (only `KeyError`). -/
theorem removeCacheLoop_first_ne_usage {Q D : Type} [DecidableEq Q]
    [DecidableEq D] (cond : Option Q) (m : D → Bool) (c : List (Entry Q D)) :
    (removeCacheLoop cond m c).1 ≠ some TErr.usageError := by
  induction c with
  | nil => simp [removeCacheLoop]
  | cons e es ih =>
    simp only [removeCacheLoop]
    split
    · exact ih
    · split
      · simp
      · simpa using ih

end SmartCache

namespace SmartCache

/-- Search keeps every cache value computed (the hit branch only reorders, the
miss branch stores `some docs`). -/
theorem allSome_searchOp {Q D : Type} [DecidableEq Q] (app : Q → D → Bool)
    (q : Q) (s : TState Q D) (h : ∀ e ∈ s.cache, e.2.isSome = true) :
    ∀ e ∈ (searchOp app q s).2.cache, e.2.isSome = true := by
  unfold searchOp
  cases hh : cacheHit q s.cache with
  | some l => exact allSome_moveToEnd q s.cache h
  | none => exact allSome_lruSet q _ s.capacity s.cache h

/-- Insert keeps every cache value computed. -/
theorem allSome_insertOp {Q D : Type} [DecidableEq Q] (app : Q → D → Bool)
    (d : D) (s : TState Q D) (h : ∀ e ∈ s.cache, e.2.isSome = true) :
    ∀ e ∈ (insertOp app d s).2.cache, e.2.isSome = true :=
  allSome_insertCachePatch app d s.cache h

/-- Bulk insert keeps every cache value computed. -/
theorem allSome_insertMultipleOp {Q D : Type} [DecidableEq Q]
    (app : Q → D → Bool) (it : PyIter D) (s : TState Q D)
    (h : ∀ e ∈ s.cache, e.2.isSome = true) :
    ∀ e ∈ (insertMultipleOp app it s).2.cache, e.2.isSome = true :=
  allSome_insertMultipleCachePatch app _ s.cache h

/-- A get keeps every cache value computed (it only reorders recency). -/
theorem allSome_getOp {Q D : Type} [DecidableEq Q] (app : Q → D → Bool)
    (cond : Option Q) (docId : Option Nat) (s : TState Q D)
    (h : ∀ e ∈ s.cache, e.2.isSome = true) :
    ∀ e ∈ (getOp app cond docId s).2.cache, e.2.isSome = true := by
  match docId, cond with
  | none, some q =>
    simp only [getOp]
    split
    · split
      · exact allSome_moveToEnd q s.cache h
      · exact allSome_moveToEnd q s.cache h
    · exact h
  | some i, cond => cases cond <;> exact h
  | none, none => exact h

/-- Truncate clears the cache, so the claim holds vacuously. -/
theorem allSome_truncateOp {Q D : Type} (s : TState Q D) :
    ∀ e ∈ (truncateOp s).cache, e.2.isSome = true := by
  intro e he
  cases he

/-- A completed remove keeps every cache value computed. -/
theorem allSome_removeOp_ok {Q D : Type} [DecidableEq Q] [DecidableEq D]
    (app : Q → D → Bool) (cond : Option Q) (docIds : Option (List Nat))
    (s : TState Q D) (r : List Nat) (s2 : TState Q D)
    (_h : ∀ e ∈ s.cache, e.2.isSome = true)
    (heq : removeOp app cond docIds s = (Except.ok r, s2)) :
    ∀ e ∈ s2.cache, e.2.isSome = true := by
  have key : ∀ (cnd : Option Q) (m : D → Bool),
      (removeCacheLoop cnd m s.cache).1 = none →
      ∀ e ∈ (removeCacheLoop cnd m s.cache).2.1 ++
        (removeCacheLoop cnd m s.cache).2.2, e.2.isSome = true := by
    intro cnd m hok e he
    rcases List.mem_append.mp he with h1 | h1
    · rw [removeCacheLoop_ok_rem_nil cnd m s.cache hok] at h1
      cases h1
    · exact removeCacheLoop_done_allSome cnd m s.cache e h1
  match cond, docIds with
  | none, none => simp [removeOp] at heq
  | some c, none =>
    simp only [removeOp] at heq
    split at heq
    · simp at heq
    · rename_i hok
      have h2 : _ = s2 := congrArg Prod.snd heq
      subst h2
      exact key _ _ hok
  | none, some ids =>
    simp only [removeOp] at heq
    split at heq
    · simp at heq
    · rename_i hok
      split at heq
      · simp at heq
      · have h2 : _ = s2 := congrArg Prod.snd heq
        subst h2
        exact key _ _ hok
  | some c, some ids =>
    simp only [removeOp] at heq
    split at heq
    · simp at heq
    · rename_i hok
      split at heq
      · simp at heq
      · have h2 : _ = s2 := congrArg Prod.snd heq
        subst h2
        exact key _ _ hok

/-- A completed update keeps every cache value computed. -/
theorem allSome_updateOp_ok {Q D : Type} [DecidableEq Q] [DecidableEq D]
    (app : Q → D → Bool) (f : D → D) (cond : Option Q)
    (docIds : Option (List Nat)) (s : TState Q D) (r : List Nat)
    (s2 : TState Q D) (h : ∀ e ∈ s.cache, e.2.isSome = true)
    (heq : updateOp app f cond docIds s = (Except.ok r, s2)) :
    ∀ e ∈ s2.cache, e.2.isSome = true := by
  simp only [updateOp] at heq
  split at heq
  · simp at heq
  · rename_i hok
    have h2 : _ = s2 := congrArg Prod.snd heq
    subst h2
    exact updateFold_ok_allSome app f _ s.store s.cache h hok

/-- Every reachable state has only computed cache values. -/
theorem reach_cache_allSome {Q D : Type} [DecidableEq Q] [DecidableEq D]
    (app : Q → D → Bool) (s : TState Q D) (h : Reach app s) :
    ∀ e ∈ s.cache, e.2.isSome = true := by
  induction h with
  | init cap => intro e he; cases he
  | search q s hr ih => exact allSome_searchOp app q s ih
  | insert d s hr ih => exact allSome_insertOp app d s ih
  | insertMany it s hr ih => exact allSome_insertMultipleOp app it s ih
  | getStep c i s hr ih => exact allSome_getOp app c i s ih
  | truncate s hr ih => exact allSome_truncateOp s
  | removeStep c ids s r s2 hr heq ih =>
    exact allSome_removeOp_ok app c ids s r s2 ih heq
  | updateStep f c ids s r s2 hr heq ih =>
    exact allSome_updateOp_ok app f c ids s r s2 ih heq

end SmartCache

namespace SmartCache

/-- Under the presence hypothesis, the per-document update loop succeeds and
patches every entry by the two independent checks. -/
theorem updateCacheLoop_ok {Q D : Type} [DecidableEq D] (app : Q → D → Bool)
    (old new : D) (c : List (Entry Q D))
    (h : ∀ e ∈ c, ∃ l, e.2 = some l ∧ (app e.1 old = true → old ∈ l)) :
    updateCacheLoop app old new c =
      (none, [], c.map (fun e => (e.1, e.2.map (fun l =>
        (if app e.1 old then removeFirstOcc old l else l) ++
        (if app e.1 new then [new] else []))))) := by
  induction c with
  | nil => rfl
  | cons e es ih =>
    obtain ⟨l, hl, hm⟩ := h e (List.mem_cons_self e es)
    have ihr := ih (fun e2 he2 => h e2 (List.mem_cons_of_mem _ he2))
    by_cases ho : app e.1 old
    · simp only [updateCacheLoop, hl, ho, if_pos,
        pyListRemove_of_mem old l (hm ho), ihr]
      by_cases hn : app e.1 new <;> simp [hn, hl, ho]
    · simp only [updateCacheLoop, hl, ho, if_neg, ihr]
      by_cases hn : app e.1 new <;> simp [hn, hl, ho]

/-- C1.  Cache-store agreement (invariant I1) is violated by the code: after
`insert({int:1,char:a})`, `insert({int:1,char:b})`, `search(int == 1)` and a
completed `remove(where(int).exists())` (a removal predicate matching both
documents and structurally different from the cached key), the store is empty
while the cached entry for `int == 1` still contains `{int:1,char:b}`.  The
inner loop of `SmartCacheTable.remove` iterates the cached list while calling
`list.remove` on it, so the element immediately following each removed one is
skipped. -/
theorem remove_breaks_cache_store_agreement :
    removeCondRun.1 = Except.ok [1, 2] ∧
    corruptState.store = [] ∧
    cacheHit qQ corruptState.cache = some [docB] ∧
    cacheHit qQ corruptState.cache ≠
      some ((corruptState.store.map Prod.snd).filter (fun d => sapp qQ d)) := by
  refine ⟨rfl, by decide, by decide, by decide⟩

/-- C2 (counterexample).  Hit/miss indistinguishability fails as the claim
states it: in the state left by the faulty `remove` (see
`remove_breaks_cache_store_agreement` for how it arises), `search(int == 1)`
is answered from the cache with `[{int:1,char:b}]`, while scanning the full
document store yields `[]`. -/
theorem search_hit_content_can_diverge_from_store :
    (searchOp sapp qQ corruptState).1 = [docB] ∧
    (corruptState.store.map Prod.snd).filter (fun d => sapp qQ d) = [] ∧
    (searchOp sapp qQ corruptState).1 ≠
      (corruptState.store.map Prod.snd).filter (fun d => sapp qQ d) := by
  refine ⟨by decide, by decide, by decide⟩

/-- C2 (amended).  For every query and every table state with no duplicate
cache keys, `search(q)` twice in a row returns equal content (the second call
is answered without touching the store), and any search that misses the cache
returns exactly the store documents satisfying the query.  What fails in the
original claim is only the assertion that a cache HIT always equals the full
scan: a faulty `remove` can leave a stale entry
(`search_hit_content_can_diverge_from_store`). -/
theorem search_idempotent_and_miss_exact {Q D : Type} [DecidableEq Q]
    [DecidableEq D] (app : Q → D → Bool) (q : Q) (s : TState Q D)
    (hnd : (s.cache.map Prod.fst).Nodup) :
    (searchOp app q (searchOp app q s).2).1 = (searchOp app q s).1 ∧
    (cacheHit q s.cache = none →
      (searchOp app q s).1 = (s.store.map Prod.snd).filter (fun d => app q d)) := by
  constructor
  · cases hh : cacheHit q s.cache with
    | some l =>
      have hf : cacheFind q s.cache = some (some l) :=
        (cacheHit_eq_some_iff q s.cache l).mp hh
      have hmv : cacheHit q (moveToEnd q s.cache) = some l := by
        rw [cacheHit_eq_some_iff, cacheFind_moveToEnd_self q s.cache hnd]
        exact hf
      simp [searchOp, hh, hmv]
    | none =>
      simp only [searchOp, hh]
      rcases cacheFind_lruSet_self q
          (some ((s.store.map Prod.snd).filter (fun d => app q d)))
          s.capacity s.cache hnd with h2 | h2
      · have : cacheHit q (lruSet q
            (some ((s.store.map Prod.snd).filter (fun d => app q d)))
            s.capacity s.cache) =
            some ((s.store.map Prod.snd).filter (fun d => app q d)) := by
          rw [cacheHit_eq_some_iff]
          exact h2
        simp [searchOp, this]
      · have : cacheHit q (lruSet q
            (some ((s.store.map Prod.snd).filter (fun d => app q d)))
            s.capacity s.cache) = none := by
          unfold cacheHit
          rw [h2]
        simp [searchOp, this]
  · intro hh
    simp [searchOp, hh]

/-- Witness for `search_idempotent_and_miss_exact` at the fresh table and the
query `int == 1`: the no-duplicate-keys and cache-miss hypotheses hold there
and both conclusions follow by applying the theorem. -/
theorem search_idempotent_and_miss_exact_witness :
    (searchOp sapp qQ (searchOp sapp qQ initState).2).1 =
      (searchOp sapp qQ initState).1 ∧
    (searchOp sapp qQ initState).1 =
      (initState.store.map Prod.snd).filter (fun d => sapp qQ d) :=
  ⟨(search_idempotent_and_miss_exact sapp qQ initState (by decide)).1,
   (search_idempotent_and_miss_exact sapp qQ initState (by decide)).2 (by decide)⟩

/-- C3.  `insert_multiple` is not equivalent to repeated `insert` for every
iterable: with a generator, `super().insert_multiple(documents)` exhausts the
iterable, so the cache-patch loop `for doc in documents` sees no documents.
Ids and store agree with the per-document insert, but the cached entry for
`int == 1` stays `[]` instead of gaining the new document. -/
theorem insert_multiple_generator_diverges_from_inserts :
    insertManyGenRun.1 = [1] ∧
    insertOneRun.1 = 1 ∧
    insertManyGenRun.2.store = insertOneRun.2.store ∧
    cacheHit qQ insertManyGenRun.2.cache = some [] ∧
    cacheHit qQ insertOneRun.2.cache = some [docN] ∧
    insertManyGenRun.2.cache ≠ insertOneRun.2.cache := by
  refine ⟨by decide, by decide, by decide, by decide, by decide, by decide⟩

/-- C4.  On `remove(doc_ids=[1, 2])` with the cache entry
`int == 1 ↦ [{int:1,char:a}, {int:1,char:b}]`, both cached documents have
their ids in the removal id set, yet after the operation the entry still
contains `{int:1,char:b}`: iterating the cached list while removing from it
skips the element following each removal, contradicting the claim that every
such cached document is removed from the entry's results. -/
theorem remove_leaves_matching_doc_in_cache :
    removeIdsRun.1 = Except.ok [1, 2] ∧
    removeIdsRun.2.store = [] ∧
    cacheHit qQ removeIdsRun.2.cache = some [docB] := by
  refine ⟨rfl, by decide, by decide⟩

/-- C5.  On update, for each targeted document the cache patch
(`perform_update_override`) evaluates the two checks independently on every
live entry: whenever every entry is computed and contains the pre-mutation
snapshot if its predicate matches it, the resulting entry value is the old
list with one value-equal occurrence of the snapshot removed (when the
predicate matched the snapshot) and with the post-mutation document appended
(when the predicate matches it) — both effects occur together when both
checks fire, not as mutually exclusive branches. -/
theorem update_checks_independent {Q D : Type} [DecidableEq D]
    (app : Q → D → Bool) (old new : D) (c : List (Entry Q D))
    (h : ∀ e ∈ c, ∃ l, e.2 = some l ∧ (app e.1 old = true → old ∈ l)) :
    updateCachePatched app old new c =
      (none, c.map (fun e => (e.1, e.2.map (fun l =>
        (if app e.1 old then removeFirstOcc old l else l) ++
        (if app e.1 new then [new] else []))))) := by
  simp [updateCachePatched, updateCacheLoop_ok app old new c h]

/-- Witness for `update_checks_independent`: updating `{int:1,char:a}` to
`{int:1,char:b}` with the entry `int == 1 ↦ [{int:1,char:a}]` — the predicate
matches both the snapshot and the new document, so the snapshot is removed AND
the new document is appended. -/
theorem update_checks_independent_witness :
    updateCachePatched sapp docA docB [(qQ, some [docA])] =
      (none, [(qQ, some [docB])]) :=
  (update_checks_independent sapp docA docB [(qQ, some [docA])]
    (by
      intro e he
      simp only [List.mem_singleton] at he
      subst he
      exact ⟨[docA], rfl, fun _ => List.mem_singleton.mpr rfl⟩)).trans (by decide)

/-- C6.  Remove with neither a predicate nor an id set always fails with the
usage error, raised before any store or cache access, so the returned state is
the unchanged input state; with at least one selector present, the operation
never raises the usage error (its only possible failure is a `KeyError`). -/
theorem remove_usage_error_iff_no_selector {Q D : Type} [DecidableEq Q]
    [DecidableEq D] (app : Q → D → Bool) (s : TState Q D) :
    removeOp app none none s = (Except.error TErr.usageError, s) ∧
    ∀ (c : Option Q) (ids : Option (List Nat)), (c ≠ none ∨ ids ≠ none) →
      (removeOp app c ids s).1 ≠ Except.error TErr.usageError := by
  constructor
  · rfl
  · intro c ids hsel
    match c, ids with
    | none, none => simp at hsel
    | some c, none =>
      simp only [removeOp]
      split
      next err heq =>
        intro hcontra
        simp only [Prod.fst] at hcontra
        cases hcontra
        exact removeCacheLoop_first_ne_usage _ _ _ heq
      next heq => simp
    | none, some ids =>
      simp only [removeOp]
      split
      next err heq =>
        intro hcontra
        simp only [Prod.fst] at hcontra
        cases hcontra
        exact removeCacheLoop_first_ne_usage _ _ _ heq
      next heq =>
        split
        · simp
        · simp
    | some c, some ids =>
      simp only [removeOp]
      split
      next err heq =>
        intro hcontra
        simp only [Prod.fst] at hcontra
        cases hcontra
        exact removeCacheLoop_first_ne_usage _ _ _ heq
      next heq =>
        split
        · simp
        · simp

/-- Witness for `remove_usage_error_iff_no_selector` at the fresh table: the
selector-free call errors with the state unchanged, and a call with a
predicate does not raise the usage error. -/
theorem remove_usage_error_iff_no_selector_witness :
    removeOp sapp none none initState = (Except.error TErr.usageError, initState) ∧
    (removeOp sapp (some qQ) none initState).1 ≠ Except.error TErr.usageError :=
  ⟨(remove_usage_error_iff_no_selector sapp initState).1,
   (remove_usage_error_iff_no_selector sapp initState).2 (some qQ) none
     (Or.inl (by decide))⟩

/-- C7 (counterexample).  In the literal sequence of the claim — three
documents present, `search(int == 1)`, `search(int == 2)`, `truncate()`,
`insert({int: 1})` — the cache holds 0 entries, not 2: `truncate()` clears the
whole cache and the insert only patches live entries, of which there are
none. -/
theorem truncate_insert_leaves_empty_cache :
    (insertOp sapp docN truncatedState).2.cache = [] ∧
    (insertOp sapp docN truncatedState).2.cache.length ≠ 2 := by
  refine ⟨by decide, by decide⟩

/-- C7 (amended).  With the subsequent `search(int == 1)` and
`search(int == 2)` of the spec's step 2 reinstated between `truncate()` and
`insert({int: 1})`, the cache holds exactly 2 entries after the insert: the
entry for `int == 1` has length 1 (exactly the new document) and the entry
for `int == 2` has length 0. -/
theorem truncate_search_insert_cache_state :
    truncSearchInsertState.cache.length = 2 ∧
    cacheHit qQ truncSearchInsertState.cache = some [docN] ∧
    cacheHit qD truncSearchInsertState.cache = some [] := by
  refine ⟨by decide, by decide, by decide⟩

/-- C8 (counterexample).  The copy returned by the hit path of `search` is a
SHALLOW copy: the returned list is a fresh object holding the same document
references as the cache-owned list, so mutating the document reached through
the returned list (here: overwriting the document behind the reference found
at position 0 of the returned list) changes what the cache-owned entry
contains — the claim that mutating a returned document never changes the
cache-owned entry is false. -/
theorem search_hit_copy_shares_documents :
    readCell (searchHitCopy [[0]] 0).2 (searchHitCopy [[0]] 0).1 =
      readCell (searchHitCopy [[0]] 0).2 0 ∧
    docView (List.set [docA] ((readCell (searchHitCopy [[0]] 0).2
        (searchHitCopy [[0]] 0).1).getD 0 0) docB)
      (readCell (searchHitCopy [[0]] 0).2 0) ≠
    docView [docA] (readCell [[0]] 0) := by
  refine ⟨by decide, by decide⟩

/-- C8 (amended).  The hit path `return docs[:]` is a defensive copy at the
LIST level: the returned list is a distinct object whose initial contents
equal the cached entry, and overwriting the returned object with any contents
(covering appends, removals and element replacements) leaves the cache-owned
cell unchanged.  Document-level mutation is NOT protected
(`search_hit_copy_shares_documents`): the copy is shallow. -/
theorem search_hit_defensive_list_copy (h : List (List Nat)) (cid : Nat)
    (newv : List Nat) (hlt : cid < h.length) :
    (searchHitCopy h cid).1 ≠ cid ∧
    readCell (searchHitCopy h cid).2 (searchHitCopy h cid).1 = readCell h cid ∧
    readCell (writeCell (searchHitCopy h cid).2 (searchHitCopy h cid).1 newv) cid
      = readCell h cid := by
  refine ⟨?_, ?_, ?_⟩
  · show h.length ≠ cid
    omega
  · show readCell (h ++ [readCell h cid]) h.length = readCell h cid
    unfold readCell
    rw [List.getD_eq_getElem?_getD, List.getElem?_append_right (le_refl h.length)]
    simp
  · show readCell ((h ++ [readCell h cid]).set h.length newv) cid = readCell h cid
    unfold readCell
    rw [List.getD_eq_getElem?_getD, List.getD_eq_getElem?_getD]
    rw [List.getElem?_set_ne (by omega)]
    rw [List.getElem?_append, if_pos hlt]

/-- Witness for `search_hit_defensive_list_copy` at the one-entry heap: the
returned cell is fresh, its contents are the cached contents, and overwriting
it leaves the cached cell intact. -/
theorem search_hit_defensive_list_copy_witness :
    (searchHitCopy [[0]] 0).1 ≠ 0 ∧
    readCell (searchHitCopy [[0]] 0).2 (searchHitCopy [[0]] 0).1 =
      readCell [[0]] 0 ∧
    readCell (writeCell (searchHitCopy [[0]] 0).2 (searchHitCopy [[0]] 0).1 [5]) 0
      = readCell [[0]] 0 :=
  search_hit_defensive_list_copy [[0]] 0 [5] (by decide)

/-- C9.  Every value this implementation ever stores in the query cache is a
computed list, never the `None`/Unset marker: in every state reachable by
completed operations from a fresh table, all cache values are `some`.  Hence
the `results is not None` guards of `insert` and `insert_multiple` never see
`None` and the unguarded list operations of `update` and `remove` never meet a
non-list entry. -/
theorem cache_never_stores_unset {Q D : Type} [DecidableEq Q] [DecidableEq D]
    (app : Q → D → Bool) (s : TState Q D) (h : Reach app s) :
    s.cache.all (fun e => e.2.isSome) = true :=
  List.all_eq_true.mpr (reach_cache_allSome app s h)

/-- Witness for `cache_never_stores_unset` at a concrete reachable state:
fresh table, one insert, one search. -/
theorem cache_never_stores_unset_witness :
    ((searchOp sapp qQ (insertOp sapp docA ⟨[], 1, [], 10⟩).2).2.cache.all
      (fun e => e.2.isSome)) = true :=
  cache_never_stores_unset sapp _
    (Reach.search qQ _ (Reach.insert docA _ (Reach.init 10)))

/-- C10.  Whenever a document id is supplied, `get` never consults the query
cache even if a predicate with a cached entry is also supplied: the guard
`(doc_id is None) and (cond is not None)` fails, `super().get` resolves the id
directly against the document store, and the state (including the cache and
its recency order) is returned unchanged. -/
theorem get_with_doc_id_bypasses_cache {Q D : Type} [DecidableEq Q]
    [DecidableEq D] (app : Q → D → Bool) (cond : Option Q) (n : Nat)
    (s : TState Q D) :
    getOp app cond (some n) s = (Except.ok (storeLookup s.store n), s) := by
  cases cond <;> rfl

end SmartCache
